import Mathlib

/-!
Shallow embedding of the Guvi_hackathon document Q&A system.

The frontend (React components `App.jsx`, `DocumentUpload.jsx`,
`ChatInterface.jsx`, `DocumentList.jsx`) is embedded as pure state
transition functions.  The retrieval backend (chunker, vector index,
search, answer synthesizer) is not present in the repository source;
those components are modelled from the specification (each such
definition's doc comment says so).
-/

namespace RagSpec

/-! ## Data model shared by the UI embedding -/

/-- A source citation attached to an assistant message / answer. -/
structure SourceCite where
  chunkId : ℕ
  label : String
  excerpt : String
  score : ℚ
deriving DecidableEq, Repr

/-- Document metadata as held by the frontend (`response.data` of `/api/upload`). -/
structure Document where
  id : ℕ
  filename : String
deriving DecidableEq, Repr

/-- Message type discriminator (`message.type` in `ChatInterface`). -/
inductive MsgType where
  | user
  | assistant
deriving DecidableEq, Repr

/-- A chat message as built in `ChatInterface.handleSubmit`. -/
structure Message where
  id : ℕ
  mtype : MsgType
  content : String
  sources : List SourceCite
  isError : Bool
  timestamp : ℕ
deriving DecidableEq, Repr

/-- The state held by `App` (`documents`, `selectedDocument`, `messages`). -/
structure AppState where
  documents : List Document
  selectedDocument : Option Document
  messages : List Message
deriving DecidableEq, Repr

/-! ## App.jsx handlers -/

/-- `App.handleDocumentUploaded`: append the document; select it only when
nothing is selected (`if (!selectedDocument) setSelectedDocument(document)`). -/
def handleDocumentUploaded (s : AppState) (d : Document) : AppState :=
  { s with
    documents := s.documents ++ [d]
    selectedDocument :=
      match s.selectedDocument with
      | none => some d
      | some x => some x }

/-- `App.handleDocumentSelect`: select the document and clear the chat. -/
def handleDocumentSelect (s : AppState) (d : Document) : AppState :=
  { s with selectedDocument := some d, messages := [] }

/-- `App.handleNewMessage`: append a message to the transcript. -/
def handleNewMessage (s : AppState) (m : Message) : AppState :=
  { s with messages := s.messages ++ [m] }

/-! ## ChatInterface.jsx -/

/-- Local state of `ChatInterface` (`question`, `isLoading`). -/
structure ChatState where
  question : String
  isLoading : Bool
deriving DecidableEq, Repr

/-- The body of a `POST /api/query` request. -/
structure QueryRequest where
  documentId : ℕ
  question : String
deriving DecidableEq, Repr

/-- Outcome of the awaited `axios.post('/api/query', ...)` call. -/
inductive QueryOutcome where
  | success (answer : String) (sources : List SourceCite)
  | failure
deriving DecidableEq, Repr

/-- JavaScript `String.prototype.trim`: strip leading and trailing
whitespace. -/
def jsTrim (s : String) : String :=
  String.mk
    (((s.data.dropWhile Char.isWhitespace).reverse.dropWhile Char.isWhitespace).reverse)

/-- The error bubble content in the `catch` block of `handleSubmit`. -/
def queryErrorText : String :=
  "Sorry, I encountered an error while processing your question. Please try again."

/-- `ChatInterface.handleSubmit`: guard on empty trimmed question or an
in-flight request, append the user message, issue one query request, and
append either the assistant answer or the error message.  Returns the new
chat state, the new transcript, and the list of requests issued.  `now`
stands for `Date.now()`. -/
def handleSubmit (doc : Document) (cs : ChatState) (msgs : List Message)
    (now : ℕ) (outcome : QueryOutcome) :
    ChatState × List Message × List QueryRequest :=
  if jsTrim cs.question = "" ∨ cs.isLoading then (cs, msgs, [])
  else
    let userMsg : Message := ⟨now, .user, cs.question, [], false, now⟩
    let msgs1 := msgs ++ [userMsg]
    let req : QueryRequest := ⟨doc.id, cs.question⟩
    match outcome with
    | .success answer sources =>
        (⟨"", false⟩, msgs1 ++ [⟨now + 1, .assistant, answer, sources, false, now⟩], [req])
    | .failure =>
        (⟨"", false⟩, msgs1 ++ [⟨now + 1, .assistant, queryErrorText, [], true, now⟩], [req])

/-- A submit event at the `App` level: `onNewMessage` is `App.handleNewMessage`,
so the transcript produced by `handleSubmit` becomes `App`'s message list while
`documents` and `selectedDocument` are not touched. -/
def appHandleSubmit (s : AppState) (doc : Document) (cs : ChatState)
    (now : ℕ) (outcome : QueryOutcome) :
    AppState × ChatState × List QueryRequest :=
  let r := handleSubmit doc cs s.messages now outcome
  ({ s with messages := r.2.1 }, r.1, r.2.2)

/-! ## DocumentUpload.jsx -/

/-- A file as presented to the dropzone: name and declared content type. -/
structure UFile where
  name : String
  contentType : String
deriving DecidableEq, Repr

/-- An upload request (`axios.post('/api/upload', formData)`). -/
structure UploadRequest where
  file : UFile
deriving DecidableEq, Repr

/-- The `accept` option given to `useDropzone` in `DocumentUpload`. -/
def acceptMap : List (String × List String) :=
  [("application/pdf", [".pdf"]),
   ("text/markdown", [".md"]),
   ("text/html", [".html"]),
   ("text/plain", [".txt"])]

/-- Whether a declared content type is accepted by the dropzone filter. -/
def accepts (ct : String) : Bool :=
  (acceptMap.map Prod.fst).contains ct

/-- The dropzone's filtering of a dropped file list: only files whose content
type is in `acceptMap` are kept, and with `maxFiles: 1` a drop of more than
one accepted file is rejected wholesale. -/
def dropzoneFilter (files : List UFile) : List UFile :=
  let acc := files.filter (fun f => accepts f.contentType)
  if acc.length > 1 then [] else acc

/-- `DocumentUpload.onDrop`: take `acceptedFiles[0]` (returning without a
request when there is none) and issue exactly one upload request for it. -/
def onDrop (accepted : List UFile) : List UploadRequest :=
  match accepted.head? with
  | none => []
  | some f => [⟨f⟩]

/-- Requests caused by dropping `files` on the upload zone. -/
def uploadRequests (files : List UFile) : List UploadRequest :=
  onDrop (dropzoneFilter files)

/-! ## Retrieval core (modelled from the spec; absent from the repository source) -/

/-- Modelled from the spec: a `Chunk` of the Chunker (§3, §4.1) — sequence
index, absolute character offsets into the source text, and window text. -/
structure Chunk where
  seqIndex : ℕ
  charStart : ℕ
  charEnd : ℕ
  text : List Char
deriving DecidableEq, Repr

/-- Modelled from the spec: the chunking loop (§4.1).  Starting at `start`,
emit the window `text[start : start+size]`; stop after the window that
reaches the end of the text, otherwise advance the start by `step`.  The
`fuel` argument bounds the recursion; `chunk` supplies enough fuel that the
loop never runs out. -/
def chunkAux (t : List Char) (size step : ℕ) : ℕ → ℕ → ℕ → List Chunk
  | 0, _, _ => []
  | fuel + 1, idx, start =>
    if start < t.length then
      if min (start + size) t.length = t.length then
        [⟨idx, start, min (start + size) t.length, (t.drop start).take size⟩]
      else
        ⟨idx, start, min (start + size) t.length, (t.drop start).take size⟩ ::
          chunkAux t size step fuel (idx + 1) (start + step)
    else []

/-- Modelled from the spec: `chunk(text, size, overlap)` (§4.1) — windows of
length `size`, the window start advancing by `size - overlap`; the final,
possibly shorter window is still emitted; empty text yields no chunks.
Outside the contract's precondition `overlap < size` no chunks are produced. -/
def chunk (t : List Char) (size overlap : ℕ) : List Chunk :=
  if overlap < size then chunkAux t size (size - overlap) t.length 0 0 else []

/-- Modelled from the spec: one entry of a per-document Vector Index (§3),
carrying the chunk id, its (already L2-normalized) embedding vector, and the
chunk text held by the Document Store. -/
structure IndexEntry where
  chunkId : ℕ
  vec : List ℚ
  text : String
deriving DecidableEq, Repr

/-- One element of a Retrieval Result (§3): chunk id, similarity score,
chunk text. -/
structure Hit where
  chunkId : ℕ
  score : ℚ
  text : String
deriving DecidableEq, Repr

/-- Inner product of two vectors (cosine similarity on normalized vectors,
§4.3). -/
def dot (a b : List ℚ) : ℚ :=
  (List.zipWith (· * ·) a b).sum

/-- Score one index entry against a query vector. -/
def scoreEntry (q : List ℚ) (e : IndexEntry) : Hit :=
  ⟨e.chunkId, dot q e.vec, e.text⟩

/-- Result ordering: higher similarity first (ties kept in insertion order,
i.e. ascending chunk sequence index, by stability of insertion sort). -/
def hitLE (a b : Hit) : Prop := b.score ≤ a.score

instance : DecidableRel hitLE := fun a b =>
  inferInstanceAs (Decidable (b.score ≤ a.score))

instance : IsTotal Hit hitLE := ⟨fun a b => le_total b.score a.score⟩

instance : IsTrans Hit hitLE := ⟨fun _ _ _ hab hbc => le_trans hbc hab⟩

/-- Modelled from the spec: `search(query_vector, k)` of the Vector Index /
Retriever (§4.3) — score every entry, sort by descending similarity, return
the first `k`. -/
def search (idx : List IndexEntry) (q : List ℚ) (k : ℕ) : List Hit :=
  (List.insertionSort hitLE (idx.map (scoreEntry q))).take k

/-- An `Answer` (§3): text, confidence, source citations. -/
structure Answer where
  text : String
  confidence : ℚ
  sources : List SourceCite
deriving DecidableEq, Repr

/-- Clamp a rational into `[0, 1]`. -/
def clamp01 (x : ℚ) : ℚ := min 1 (max 0 x)

/-- Modelled from the spec: the confidence formula of the Answer Synthesizer
(§4.4) — derived from the top similarity score and the spread between the
top-1 and top-2 scores, clamped into `[0, 1]`; `0` on an empty result. -/
def confidenceOf : List Hit → ℚ
  | [] => 0
  | r1 :: rest =>
    let spread : ℚ :=
      match rest with
      | [] => 0
      | r2 :: _ => r1.score - r2.score
    clamp01 (7 / 10 * r1.score + 3 / 10 * spread)

/-- The canned answer text for an empty retrieval result (§4.4). -/
def noContentText : String :=
  "No relevant content found in the document."

/-- A short excerpt of a chunk for citation display (§4.4). -/
def excerptOf (s : String) : String := s.take 160

/-- The lowercased leading word of the question, for question-type
heuristics (§4.4). -/
def questionWord (q : String) : String :=
  List.headD (q.trim.toLower.split (fun c => c = ' ')) ("")

/-- Modelled from the spec: question-type template selection (§4.4). -/
def answerLead (q : String) : String :=
  if questionWord q = "who" then "The document mentions: "
  else if questionWord q = "when" then "According to the document: "
  else if questionWord q = "where" then "According to the document: "
  else if questionWord q = "why" then "The document explains: "
  else if questionWord q = "how" then "The document describes: "
  else "Based on the document: "

/-- Citation for a retrieved chunk: id, label, short excerpt, score (§4.4). -/
def sourceOf (r : Hit) : SourceCite :=
  ⟨r.chunkId, "chunk " ++ toString r.chunkId, excerptOf r.text, r.score⟩

/-- Modelled from the spec: `synthesize(question, results)` (§4.4) — on an
empty result the canned zero-confidence answer with no sources; otherwise an
answer assembled from the top chunk, the deterministic confidence, and a
citation for the chunk used. -/
def synthesize (q : String) : List Hit → Answer
  | [] => ⟨noContentText, 0, []⟩
  | r :: rest =>
    ⟨answerLead q ++ excerptOf r.text, confidenceOf (r :: rest), [sourceOf r]⟩

/-- Query-time error kinds (§7). -/
inductive QueryError where
  | unknownDocument
  | synthesisFailure
deriving DecidableEq, Repr

/-- Modelled from the spec: the query pipeline (§4.4, §6, §7) — look the
document's index up in the store, embed the question, search, synthesize.
An unknown document id is a typed error; everything else returns an Answer. -/
def handleQuery (embed : String → List ℚ) (store : List (ℕ × List IndexEntry))
    (docId : ℕ) (q : String) (k : ℕ) : Except QueryError Answer :=
  match List.lookup docId store with
  | none => .error .unknownDocument
  | some idx => .ok (synthesize q (search idx (embed q) k))

/-! ## Theorems about the UI handlers -/

/-- C8: selecting a document (also re-selecting the current one) sets the
selection to the chosen document, resets the chat transcript to empty, and
leaves the list of uploaded documents unchanged. -/
theorem handleDocumentSelect_spec (s : AppState) (d : Document) :
    (handleDocumentSelect s d).selectedDocument = some d ∧
    (handleDocumentSelect s d).messages = [] ∧
    (handleDocumentSelect s d).documents = s.documents :=
  ⟨rfl, rfl, rfl⟩

/-- C9: a successful upload appends the (fresh) returned document to the end
of the document list; it becomes the selected document exactly when nothing
was selected before; an existing selection is never changed; the chat
transcript is never touched. -/
theorem handleDocumentUploaded_spec (s : AppState) (d : Document)
    (hfresh : s.selectedDocument ≠ some d) :
    (handleDocumentUploaded s d).documents = s.documents ++ [d] ∧
    ((handleDocumentUploaded s d).selectedDocument = some d ↔
      s.selectedDocument = none) ∧
    (∀ x, s.selectedDocument = some x →
      (handleDocumentUploaded s d).selectedDocument = some x) ∧
    (handleDocumentUploaded s d).messages = s.messages := by
  cases h : s.selectedDocument with
  | none => simp [handleDocumentUploaded, h]
  | some x =>
    rw [h] at hfresh
    have hxd : x ≠ d := fun he => hfresh (by rw [he])
    simp [handleDocumentUploaded, h, hxd]

/-- Witness for `handleDocumentUploaded_spec` at a concrete state. -/
theorem handleDocumentUploaded_spec_witness :
    (AppState.mk [] none []).selectedDocument ≠ some ⟨1, "a"⟩ ∧
    (handleDocumentUploaded ⟨[], none, []⟩ ⟨1, "a"⟩).selectedDocument = some ⟨1, "a"⟩ :=
  ⟨by decide,
    ((handleDocumentUploaded_spec ⟨[], none, []⟩ ⟨1, "a"⟩ (by decide)).2.1).mpr rfl⟩

/-- C10: `handleSubmit` issues a query request only when the trimmed question
is non-empty and no query is in flight, and issues none otherwise. -/
theorem handleSubmit_guard (doc : Document) (cs : ChatState) (msgs : List Message)
    (now : ℕ) (outcome : QueryOutcome) :
    ((handleSubmit doc cs msgs now outcome).2.2 ≠ [] →
      jsTrim cs.question ≠ "" ∧ cs.isLoading = false) ∧
    (jsTrim cs.question = "" ∨ cs.isLoading = true →
      (handleSubmit doc cs msgs now outcome).2.2 = []) := by
  by_cases h : jsTrim cs.question = "" ∨ cs.isLoading = true
  · have hg : (handleSubmit doc cs msgs now outcome).2.2 = [] := by
      simp only [handleSubmit, if_pos h]
    exact ⟨fun hne => absurd hg hne, fun _ => hg⟩
  · push_neg at h
    obtain ⟨hq, hl⟩ := h
    refine ⟨fun _ => ⟨hq, by simpa using hl⟩, fun hc => ?_⟩
    rcases hc with hc | hc
    · exact absurd hc hq
    · exact absurd hc hl

/-- Witness for `handleSubmit_guard` at a concrete submit that does issue a
request. -/
theorem handleSubmit_guard_witness :
    (handleSubmit ⟨1, "f"⟩ ⟨"hi", false⟩ [] 0 .failure).2.2 ≠ [] ∧
    (jsTrim (ChatState.mk "hi" false).question ≠ "" ∧
      (ChatState.mk "hi" false).isLoading = false) :=
  ⟨by decide, (handleSubmit_guard ⟨1, "f"⟩ ⟨"hi", false⟩ [] 0 .failure).1 (by decide)⟩

/-- C6: a failed query leaves the document list, the selection and the prior
messages untouched, appends the user's message followed by the user-facing
chat error message, and issues exactly one request (no automatic retry). -/
theorem query_failure_isolated (s : AppState) (doc : Document) (cs : ChatState)
    (now : ℕ) (hq : jsTrim cs.question ≠ "") (hl : cs.isLoading = false) :
    (appHandleSubmit s doc cs now .failure).1.documents = s.documents ∧
    (appHandleSubmit s doc cs now .failure).1.selectedDocument = s.selectedDocument ∧
    (appHandleSubmit s doc cs now .failure).1.messages =
      s.messages ++ [⟨now, .user, cs.question, [], false, now⟩,
        ⟨now + 1, .assistant, queryErrorText, [], true, now⟩] ∧
    (appHandleSubmit s doc cs now .failure).2.2 = [⟨doc.id, cs.question⟩] := by
  have hcond : ¬(jsTrim cs.question = "" ∨ cs.isLoading = true) := by
    rintro (h | h)
    · exact hq h
    · rw [hl] at h
      exact Bool.false_ne_true h
  simp [appHandleSubmit, handleSubmit, hcond]

/-- Witness for `query_failure_isolated` at a concrete failed query. -/
theorem query_failure_isolated_witness :
    (jsTrim (ChatState.mk "hi" false).question ≠ "" ∧
      (ChatState.mk "hi" false).isLoading = false) ∧
    (appHandleSubmit ⟨[⟨1, "f"⟩], some ⟨1, "f"⟩, []⟩ ⟨1, "f"⟩ ⟨"hi", false⟩ 5
        .failure).1.documents = [⟨1, "f"⟩] :=
  ⟨⟨by decide, rfl⟩,
    (query_failure_isolated ⟨[⟨1, "f"⟩], some ⟨1, "f"⟩, []⟩ ⟨1, "f"⟩ ⟨"hi", false⟩ 5
      (by decide) rfl).1⟩

/-- C5: the dropzone accepts exactly the four configured content types, and
every upload request it ever issues is for a file of an accepted content
type. -/
theorem upload_accept_spec :
    (∀ ct, accepts ct = true ↔
      (ct = "application/pdf" ∨ ct = "text/markdown" ∨
        ct = "text/html" ∨ ct = "text/plain")) ∧
    (∀ files, ∀ r ∈ uploadRequests files, accepts r.file.contentType = true) := by
  constructor
  · intro ct
    simp [accepts, acceptMap, List.contains]
  · intro files r hr
    dsimp [uploadRequests, onDrop, dropzoneFilter] at hr
    by_cases hlen : (files.filter fun f => accepts f.contentType).length > 1
    · rw [if_pos hlen] at hr
      simp at hr
    · rw [if_neg hlen] at hr
      cases hh : (files.filter fun f => accepts f.contentType).head? with
      | none => rw [hh] at hr; simp at hr
      | some f =>
        rw [hh] at hr
        have hrf : r = ⟨f⟩ := by simpa using hr
        have hf : f ∈ files.filter fun g => accepts g.contentType :=
          List.mem_of_mem_head? (by rw [hh]; exact rfl)
        have := (List.mem_filter.mp hf).2
        rw [hrf]
        simpa using this

/-- Witness for `upload_accept_spec` at a concrete dropped file list. -/
theorem upload_accept_spec_witness :
    (UploadRequest.mk ⟨"a.pdf", "application/pdf"⟩ ∈
      uploadRequests [⟨"a.pdf", "application/pdf"⟩]) ∧
    accepts (UploadRequest.mk ⟨"a.pdf", "application/pdf"⟩).file.contentType = true :=
  ⟨by decide,
    upload_accept_spec.2 [⟨"a.pdf", "application/pdf"⟩] ⟨⟨"a.pdf", "application/pdf"⟩⟩
      (by decide)⟩

/-! ## Theorems about the retrieval core -/

/-- `clamp01` is monotone. -/
theorem clamp01_mono {x y : ℚ} (h : x ≤ y) : clamp01 x ≤ clamp01 y :=
  min_le_min le_rfl (max_le_max le_rfl h)

/-- C1: holding everything but the top-1 similarity score fixed, the
confidence produced by `synthesize` is monotonically non-decreasing in the
top-1 score. -/
theorem synthesize_confidence_mono (q : String) (cid : ℕ) (txt : String)
    (s1 s2 : ℚ) (rest : List Hit) (h : s1 ≤ s2) :
    (synthesize q (⟨cid, s1, txt⟩ :: rest)).confidence ≤
      (synthesize q (⟨cid, s2, txt⟩ :: rest)).confidence := by
  cases rest with
  | nil =>
    simp only [synthesize, confidenceOf]
    exact clamp01_mono (by linarith)
  | cons r2 rs =>
    simp only [synthesize, confidenceOf]
    exact clamp01_mono (by linarith)

/-- Witness for `synthesize_confidence_mono` at concrete scores. -/
theorem synthesize_confidence_mono_witness :
    (1 / 2 : ℚ) ≤ 3 / 4 ∧
    (synthesize ("what is x") [⟨0, 1 / 2, "t"⟩]).confidence ≤
      (synthesize ("what is x") [⟨0, 3 / 4, "t"⟩]).confidence :=
  ⟨by norm_num,
    synthesize_confidence_mono ("what is x") 0 ("t") (1 / 2) (3 / 4) [] (by norm_num)⟩

/-- C2: `search` returns at most `min k n` results, sorted by non-increasing
similarity score, and an empty index yields an empty result, not an error. -/
theorem search_spec (idx : List IndexEntry) (q : List ℚ) (k : ℕ) :
    (search idx q k).length ≤ min k idx.length ∧
    List.Pairwise (fun a b => b.score ≤ a.score) (search idx q k) ∧
    (idx = [] → search idx q k = []) := by
  refine ⟨?_, ?_, ?_⟩
  · have h1 : (List.insertionSort hitLE (idx.map (scoreEntry q))).length = idx.length := by
      rw [List.length_insertionSort, List.length_map]
    simp [search, List.length_take, h1]
  · have hs : List.Sorted hitLE (List.insertionSort hitLE (idx.map (scoreEntry q))) :=
      List.sorted_insertionSort hitLE _
    exact List.Pairwise.sublist (List.take_sublist _ _) hs
  · intro h
    subst h
    simp [search]

/-- Witness for `search_spec` on the empty index. -/
theorem search_spec_witness :
    ([] : List IndexEntry) = [] ∧ search [] [1] 5 = [] :=
  ⟨rfl, (search_spec [] [1] 5).2.2 rfl⟩

/-- C4: querying a known document whose index holds zero chunks returns a
plain Answer with confidence `0` and empty sources — no error escapes. -/
theorem query_zero_chunks (embed : String → List ℚ)
    (store : List (ℕ × List IndexEntry)) (docId : ℕ) (q : String) (k : ℕ)
    (h : List.lookup docId store = some []) :
    handleQuery embed store docId q k = .ok ⟨noContentText, 0, []⟩ := by
  simp [handleQuery, h, search, synthesize]

/-- Witness for `query_zero_chunks` on a concrete store. -/
theorem query_zero_chunks_witness :
    List.lookup 1 [(1, ([] : List IndexEntry))] = some [] ∧
    handleQuery (fun _ => []) [(1, [])] 1 ("anything") 5 =
      .ok ⟨noContentText, 0, []⟩ :=
  ⟨rfl, query_zero_chunks _ _ _ _ _ rfl⟩

/-- C7: chunking is deterministic — two runs of `chunk` on the same text and
parameters produce the same chunk sequence. -/
theorem chunk_deterministic (t : List Char) (size overlap : ℕ)
    (cs1 cs2 : List Chunk) (h1 : cs1 = chunk t size overlap)
    (h2 : cs2 = chunk t size overlap) : cs1 = cs2 :=
  h1.trans h2.symm

/-- Witness for `chunk_deterministic` at a concrete text. -/
theorem chunk_deterministic_witness :
    chunk ("abcde".data) 3 1 = chunk ("abcde".data) 3 1 :=
  chunk_deterministic ("abcde".data) 3 1 _ _ rfl rfl

/-! ## Chunker lemmas -/

/-- With text left and fuel available, `chunkAux` starts with the window at
`start`. -/
theorem chunkAux_head (t : List Char) (size step fuel idx start : ℕ)
    (hstart : start < t.length) (hfuel : t.length - start ≤ fuel) :
    ∃ rest, chunkAux t size step fuel idx start =
      ⟨idx, start, min (start + size) t.length, (t.drop start).take size⟩ :: rest := by
  cases fuel with
  | zero => omega
  | succ n =>
    rw [chunkAux, if_pos hstart]
    by_cases hmin : min (start + size) t.length = t.length
    · exact ⟨[], by rw [if_pos hmin]⟩
    · exact ⟨_, by rw [if_neg hmin]⟩

/-- Consecutive chunks produced by `chunkAux` have starts `step` apart, the
earlier chunk is a full window below the end of the text, and offset ends
are monotone. -/
theorem chunkAux_chain (t : List Char) (size step : ℕ)
    (hstep : 0 < step) (hss : step ≤ size) :
    ∀ fuel start idx, t.length - start ≤ fuel →
      List.Chain' (fun a b => b.charStart = a.charStart + step ∧
          a.charEnd = a.charStart + size ∧ a.charEnd ≤ b.charEnd)
        (chunkAux t size step fuel idx start) := by
  intro fuel
  induction fuel with
  | zero => intro start idx _; rw [chunkAux]; exact List.chain'_nil
  | succ n ih =>
    intro start idx hfuel
    rw [chunkAux]
    by_cases hstart : start < t.length
    · rw [if_pos hstart]
      by_cases hmin : min (start + size) t.length = t.length
      · rw [if_pos hmin]
        exact List.chain'_singleton _
      · rw [if_neg hmin]
        have hsz : start + size < t.length := by omega
        have hnext : start + step < t.length := by omega
        rw [List.chain'_cons']
        constructor
        · intro y hy
          obtain ⟨rest, hrest⟩ :=
            chunkAux_head t size step n (idx + 1) (start + step) hnext (by omega)
          rw [hrest] at hy
          simp only [List.head?_cons, Option.mem_def, Option.some.injEq] at hy
          subst hy
          refine ⟨rfl, ?_, ?_⟩ <;> dsimp only <;> omega
        · exact ih (start + step) (idx + 1) (by omega)
    · rw [if_neg hstart]
      exact List.chain'_nil

/-- Every chunk produced by `chunkAux` starts inside the text, ends at
`min (start + size) length`, and carries the corresponding window text. -/
theorem chunkAux_mem (t : List Char) (size step : ℕ) :
    ∀ fuel start idx c, c ∈ chunkAux t size step fuel idx start →
      c.charStart < t.length ∧
      c.charEnd = min (c.charStart + size) t.length ∧
      c.text = (t.drop c.charStart).take size := by
  intro fuel
  induction fuel with
  | zero => intro start idx c hc; rw [chunkAux] at hc; simp at hc
  | succ n ih =>
    intro start idx c hc
    rw [chunkAux] at hc
    by_cases hstart : start < t.length
    · rw [if_pos hstart] at hc
      by_cases hmin : min (start + size) t.length = t.length
      · rw [if_pos hmin] at hc
        simp only [List.mem_singleton] at hc
        subst hc
        exact ⟨hstart, rfl, rfl⟩
      · rw [if_neg hmin] at hc
        rcases List.mem_cons.mp hc with hc | hc
        · subst hc
          exact ⟨hstart, rfl, rfl⟩
        · exact ih _ _ _ hc
    · rw [if_neg hstart] at hc
      simp at hc

/-- With text left and fuel available, the last chunk of `chunkAux` ends
exactly at the end of the text. -/
theorem chunkAux_getLast (t : List Char) (size step : ℕ)
    (hstep : 0 < step) (hss : step ≤ size) :
    ∀ fuel start idx, start < t.length → t.length - start ≤ fuel →
      ((chunkAux t size step fuel idx start).getLast?).map Chunk.charEnd =
        some t.length := by
  intro fuel
  induction fuel with
  | zero => intro start idx h1 h2; omega
  | succ n ih =>
    intro start idx hstart hfuel
    rw [chunkAux, if_pos hstart]
    by_cases hmin : min (start + size) t.length = t.length
    · rw [if_pos hmin]
      simp [hmin]
    · rw [if_neg hmin]
      have hsz : start + size < t.length := by omega
      have hnext : start + step < t.length := by omega
      obtain ⟨rest, hrest⟩ :=
        chunkAux_head t size step n (idx + 1) (start + step) hnext (by omega)
      rw [hrest, List.getLast?_cons_cons, ← hrest]
      exact ih (start + step) (idx + 1) hnext (by omega)

/-- C3: for `0 < overlap < size`, the chunk starts advance by
`size - overlap`, every pair of consecutive chunks shares exactly `overlap`
characters, the offset ranges tile the whole text without gaps (first start
`0`, last end `length`, each next start inside the previous range), and
every emitted chunk — including a short final one — is non-empty. -/
theorem chunk_spec (t : List Char) (size overlap : ℕ)
    (h0 : 0 < overlap) (h1 : overlap < size) :
    List.Chain' (fun a b =>
        b.charStart = a.charStart + (size - overlap) ∧
        a.charEnd = b.charStart + overlap ∧
        b.charStart ≤ a.charEnd ∧ a.charEnd ≤ b.charEnd) (chunk t size overlap) ∧
    (∀ c ∈ chunk t size overlap,
        c.charStart < c.charEnd ∧ c.charEnd ≤ t.length ∧
        c.text.length = c.charEnd - c.charStart) ∧
    ((chunk t size overlap).head?.map Chunk.charStart =
      if t.length = 0 then none else some 0) ∧
    (((chunk t size overlap).getLast?).map Chunk.charEnd =
      if t.length = 0 then none else some t.length) := by
  have hstep : 0 < size - overlap := by omega
  have hss : size - overlap ≤ size := by omega
  unfold chunk
  rw [if_pos h1]
  refine ⟨?_, ?_, ?_, ?_⟩
  · refine (chunkAux_chain t size (size - overlap) hstep hss t.length 0 0 (by omega)).imp ?_
    intro a b hab
    obtain ⟨hb, he, hle⟩ := hab
    exact ⟨hb, by omega, by omega, hle⟩
  · intro c hc
    obtain ⟨hlt', hend, htext⟩ := chunkAux_mem t size (size - overlap) t.length 0 0 c hc
    refine ⟨by omega, by omega, ?_⟩
    rw [htext]
    simp only [List.length_take, List.length_drop]
    omega
  · by_cases ht : t.length = 0
    · rw [if_pos ht, ht, chunkAux]
      rfl
    · rw [if_neg ht]
      obtain ⟨rest, hrest⟩ :=
        chunkAux_head t size (size - overlap) t.length 0 0 (by omega) (by omega)
      rw [hrest]
      rfl
  · by_cases ht : t.length = 0
    · rw [if_pos ht, ht, chunkAux]
      rfl
    · rw [if_neg ht]
      exact chunkAux_getLast t size (size - overlap) hstep hss t.length 0 0
        (by omega) (by omega)

/-- Witness for `chunk_spec` at a concrete text and parameters. -/
theorem chunk_spec_witness :
    (0 < 1 ∧ 1 < 3) ∧
    ((chunk ("abcde".data) 3 1).getLast?).map Chunk.charEnd =
      (if ("abcde".data).length = 0 then none else some ("abcde".data).length) :=
  ⟨⟨by decide, by decide⟩,
    (chunk_spec ("abcde".data) 3 1 (by decide) (by decide)).2.2.2⟩

end RagSpec
